import Mathlib

/-!
Verification of the PuzzleFS read path (puzzlefs-lib/src/reader/{puzzlefs,fuse}.rs)
against its natural-language specification.

The Rust sources are shallowly embedded: machine integers (u64/usize/u32/i32
flag words) become `Nat`, byte buffers become `List Nat`, fallible calls
(`Result<T, WireFormatError>`) become `Except WireFormatError T`, and
operations that can panic return `Option`. The blob store
(`Image::fill_from_chunk`) and the manifest reader (`RootfsReader`) are
external collaborators of the excerpted sources and are modelled as function
parameters / structures of functions, exactly at the interface the reader
code consumes.
-/

namespace PuzzleFs

/-- Linux errno values, mirroring the `nix::errno::Errno` constants used by
the reader sources. -/
def ENOENT : Nat := 2

/-- Errno ENOTDIR on Linux. -/
def ENOTDIR : Nat := 20

/-- Errno EINVAL on Linux. -/
def EINVAL : Nat := 22

/-- Errno EROFS on Linux. -/
def EROFS : Nat := 30

/-- Errno ERANGE on Linux. -/
def ERANGE : Nat := 34

/-- Errno ENOSYS on Linux. -/
def ENOSYS : Nat := 38

/-- Errno ENODATA on Linux. -/
def ENODATA : Nat := 61

/-- Error type of the reader core, embedding the variants of
`format::WireFormatError` that the excerpted sources construct:
`from_errno(e)` and `InvalidImageVersion(msg, backtrace)` (the backtrace is
not data-relevant and is dropped). -/
inductive WireFormatError where
  | Errno (e : Nat)
  | InvalidImageVersion (msg : List Char)
deriving DecidableEq

/-- Embedding of `WireFormatError::from_errno`. -/
def WireFormatError.from_errno (e : Nat) : WireFormatError := .Errno e

/-- A chunk reference `(blob, len)` from `format`: `blob` is the
content-address handle (a digest identifier, embedded as `Nat`), `len` the
byte length this chunk contributes to the file. -/
structure Chunk where
  blob : Nat
  len : Nat
deriving DecidableEq

/-- A directory entry `(name bytes, ino)` from `format::DirEnt`. -/
structure DirEnt where
  ino : Nat
  name : List Nat
deriving DecidableEq

/-- Directory listing from `format::DirList`. -/
structure DirList where
  entries : List DirEnt
deriving DecidableEq

/-- An extended attribute `(key, val)` pair. -/
structure Xattr where
  key : List Nat
  val : List Nat
deriving DecidableEq

/-- Optional extra inode data: xattrs and a symlink target. -/
structure InodeAdditional where
  xattrs : List Xattr
  symlink_target : Option (List Nat)
deriving DecidableEq

/-- The `format::InodeMode` tagged variant. -/
inductive InodeMode where
  | File (chunks : List Chunk)
  | Dir (dir_list : DirList)
  | Fifo
  | Chr
  | Blk
  | Lnk
  | Sock
deriving DecidableEq

/-- The decoded inode record from `format::Inode`. -/
structure Inode where
  ino : Nat
  mode : InodeMode
  permissions : Nat
  uid : Nat
  gid : Nat
  additional : Option InodeAdditional
deriving DecidableEq

/-- One blob-store request issued by `file_read`: a call
`oci.fill_from_chunk(blob, addl_offset, &mut data[start..finish], ..)`
recorded as the blob handle, the in-blob offset and the length
`finish - start` of the requested slice. -/
structure ReadReq where
  blob : Nat
  off : Nat
  len : Nat
deriving DecidableEq

/-- The blob-store read interface consumed by `file_read`:
`fill blob in_blob_offset slice_len` stands for
`oci.fill_from_chunk(blob, in_blob_offset, &mut data[start..finish], verity)`
with `slice_len = finish - start`; it returns the bytes actually read
(length at most `slice_len` for a lawful store). -/
def FillFn : Type := Nat → Nat → Nat → Except WireFormatError (List Nat)

/-- Writing the returned bytes `bs` into the buffer `data` at position
`start`, as the mutable slice `&mut data[start..]` receives them. -/
def writeAt (data : List Nat) (start : Nat) (bs : List Nat) : List Nat :=
  data.take start ++ bs ++ data.drop (start + bs.length)

/-- The chunk-walking loop of `reader/puzzlefs.rs::file_read`, lines 29-71,
embedded one-to-one: `end_ = offset + data.len()`; a chunk is skipped while
`file_offset + chunk.len < offset`; the loop breaks when
`file_offset > end_`; otherwise `addl_offset` bytes are skipped inside the
chunk and `to_read = min(data.len() - buf_offset, chunk.len - addl_offset)`
bytes are requested from the blob store. The returned triple is the final
buffer, `buf_offset` (the Ok value of the Rust function) and the list of
issued blob-store requests in order. -/
def file_read_loop (fill : FillFn) (offset end_ : Nat) :
    List Chunk → List Nat → Nat → Nat →
    Except WireFormatError (List Nat × Nat × List ReadReq)
  | [], data, _, buf_offset => .ok (data, buf_offset, [])
  | chunk :: rest, data, file_offset, buf_offset =>
    if end_ < file_offset then .ok (data, buf_offset, [])
    else if file_offset + chunk.len < offset then
      file_read_loop fill offset end_ rest data (file_offset + chunk.len) buf_offset
    else
      let addl := if file_offset < offset then offset - file_offset else 0
      let to_read := min (data.length - buf_offset) (chunk.len - addl)
      match fill chunk.blob addl to_read with
      | .error e => .error e
      | .ok bs =>
        match file_read_loop fill offset end_ rest (writeAt data buf_offset bs)
            (file_offset + addl + bs.length) (buf_offset + bs.length) with
        | .error e => .error e
        | .ok (d, r, reqs) => .ok (d, r, ⟨chunk.blob, addl, to_read⟩ :: reqs)

/-- Embedding of `reader/puzzlefs.rs::file_read`: on a non-File inode it
fails with `from_errno(ENOTDIR)` before any blob interaction; on a File it
runs the chunk loop with `end = offset + data.len()` and cursors starting
at zero. -/
def file_read (fill : FillFn) (inode : Inode) (offset : Nat) (data : List Nat) :
    Except WireFormatError (List Nat × Nat × List ReadReq) :=
  match inode.mode with
  | .File chunks => file_read_loop fill offset (offset + data.length) chunks data 0 0
  | _ => .error (WireFormatError.from_errno ENOTDIR)

/-- The blob-store model under which claim C1 is stated: blob `b` holds the
byte sequence `store b`, and `fill_from_chunk` returns the requested range
in full (up to the end of the blob). -/
def fillModel (store : Nat → List Nat) : FillFn :=
  fun blob off n => .ok (((store blob).drop off).take n)

/-- The logical content of a file: the concatenation of the chunk bytes
under a blob store `store`. -/
def fileContent (store : Nat → List Nat) (chunks : List Chunk) : List Nat :=
  (chunks.map fun c => store c.blob).flatten

/-- Requests issued by the loop once the read cursor is inside the requested
range: every remaining chunk gets one request at in-chunk offset 0 asking
for `min left chunk.len` bytes, where `left` is the remaining buffer space. -/
def fullReqs (left : Nat) : List Chunk → List ReadReq
  | [] => []
  | c :: cs => ⟨c.blob, 0, min left c.len⟩ :: fullReqs (left - min left c.len) cs

/-- Requests issued by the loop from its initial (skipping) phase:
chunks wholly before `offset` are skipped; the first chunk reaching
`offset` is read from in-chunk offset `offset - file_offset`, after which
the loop is in the `fullReqs` regime. -/
def entryReqs (offset file_offset l : Nat) : List Chunk → List ReadReq
  | [] => []
  | c :: cs =>
    if file_offset + c.len < offset then entryReqs offset (file_offset + c.len) l cs
    else
      ⟨c.blob, offset - file_offset, min l (c.len - (offset - file_offset))⟩ ::
        fullReqs (l - min l (c.len - (offset - file_offset))) cs

/-- Test for a blob-store request that actually asks for bytes. -/
def ReadReq.isPos (q : ReadReq) : Bool := decide (0 < q.len)

/-- The requests the spec calls "one blob request per covered chunk, in
order": walking the chunks with their true start positions `s`, the chunks
whose byte span `[s, s + len)` meets the requested window
`[offset, offset + l)` nontrivially, each contributing one request for
exactly the intersection. -/
def coveredReqs (offset l s : Nat) : List Chunk → List ReadReq
  | [] => []
  | c :: cs =>
    if max s offset < min (s + c.len) (offset + l) then
      ⟨c.blob, offset - s, min (s + c.len) (offset + l) - max s offset⟩ ::
        coveredReqs offset l (s + c.len) cs
    else coveredReqs offset l (s + c.len) cs

/-- A Unix path component as produced by `std::path::Path::components()`
(the Windows-only prefix component cannot arise on the Unix paths the
reader handles). -/
inductive Component where
  | RootDir
  | CurDir
  | ParentDir
  | Normal (name : List Nat)
deriving DecidableEq

/-- The verity map: blob digest to expected fs-verity root. -/
def VerityData : Type := List (List Nat × List Nat)

/-- The manifest/rootfs reader interface (`format::RootfsReader`) as consumed
by `reader/puzzlefs.rs`: each operation may fail with a wire-format error. -/
structure RootfsReader where
  get_manifest_version : Except WireFormatError Nat
  get_verity_data : Except WireFormatError VerityData
  find_inode : Nat → Except WireFormatError Inode
  max_inode : Except WireFormatError Nat

/-- The blob store (`oci::Image`) interface consumed by `PuzzleFS::open`. -/
structure Image where
  open_rootfs_blob : String → Option (List Nat) → Except WireFormatError RootfsReader

/-- The `PuzzleFS` struct of `reader/puzzlefs.rs`. -/
structure PuzzleFS where
  oci : Image
  rootfs : RootfsReader
  verity_data : Option VerityData
  manifest_verity : Option (List Nat)

/-- `PUZZLEFS_IMAGE_MANIFEST_VERSION` from `reader/puzzlefs.rs`. -/
def PUZZLEFS_IMAGE_MANIFEST_VERSION : Nat := 3

/-- The characters of the `format!("got {}, expected {}", v, expected)`
message built by `PuzzleFS::open` on a version mismatch. -/
def gotExpectedMsg (got expected : Nat) : List Char :=
  "got ".data ++ Nat.toDigits 10 got ++ ", expected ".data ++ Nat.toDigits 10 expected

/-- Embedding of `PuzzleFS::open` (reader/puzzlefs.rs lines 82-108): open the
rootfs blob for the tag, reject any manifest version other than
`PUZZLEFS_IMAGE_MANIFEST_VERSION` with an `InvalidImageVersion` error whose
message names the observed and expected versions (the source calls
`get_manifest_version` a second time to format the message, so a second
failure there surfaces instead), then eagerly load verity data iff a
manifest verity root was supplied. -/
def PuzzleFS.openImage (oci : Image) (tag : String) (manifest_verity : Option (List Nat)) :
    Except WireFormatError PuzzleFS :=
  match oci.open_rootfs_blob tag manifest_verity with
  | .error e => .error e
  | .ok rootfs =>
    match rootfs.get_manifest_version with
    | .error e => .error e
    | .ok v =>
      if v ≠ PUZZLEFS_IMAGE_MANIFEST_VERSION then
        match rootfs.get_manifest_version with
        | .error e => .error e
        | .ok v2 =>
          .error (.InvalidImageVersion (gotExpectedMsg v2 PUZZLEFS_IMAGE_MANIFEST_VERSION))
      else
        match (if manifest_verity.isSome then rootfs.get_verity_data.map some
               else .ok none) with
        | .error e => .error e
        | .ok vd =>
          .ok { oci := oci, rootfs := rootfs, verity_data := vd,
                manifest_verity := manifest_verity }

/-- `PuzzleFS::find_inode` delegates to the rootfs reader. -/
def PuzzleFS.find_inode (p : PuzzleFS) (ino : Nat) : Except WireFormatError Inode :=
  p.rootfs.find_inode ino

/-- The per-component walk of `PuzzleFS::lookup` (lines 124-141): a `Normal`
component is looked up byte-for-byte in the entries of the current directory and
the walk descends; a miss or a non-directory current inode yields
`Ok(None)`; any non-`Normal` component yields `EINVAL`. -/
def lookup_walk (p : PuzzleFS) : List Component → Inode →
    Except WireFormatError (Option Inode)
  | [], cur => .ok (some cur)
  | comp :: rest, cur =>
    match comp with
    | .Normal name =>
      match cur.mode with
      | .Dir dir_list =>
        match dir_list.entries.find? (fun de => de.name == name) with
        | some de =>
          match p.find_inode de.ino with
          | .error e => .error e
          | .ok next => lookup_walk p rest next
        | none => .ok none
      | _ => .ok none
    | _ => .error (WireFormatError.from_errno EINVAL)

/-- Embedding of `PuzzleFS::lookup` (lines 115-144). The source indexes
`components[0]` before anything else, which panics on an empty component
list; the embedding returns `none` for that panic and `some result`
otherwise. A first component other than `RootDir` fails with `EINVAL`;
otherwise the walk starts from `find_inode(1)`. -/
def PuzzleFS.lookup (p : PuzzleFS) (components : List Component) :
    Option (Except WireFormatError (Option Inode)) :=
  match components with
  | [] => none
  | c0 :: rest =>
    some (if c0 = Component.RootDir then
            match p.find_inode 1 with
            | .error e => .error e
            | .ok root => lookup_walk p rest root
          else .error (WireFormatError.from_errno EINVAL))

/-- Replies the fuse adapter sends back to the kernel, restricted to the
shapes the embedded operations produce. -/
inductive FuseReply where
  | error (errno : Nat)
  | opened (fh : Nat) (flags : Nat)
  | ok
deriving DecidableEq

/-- The `Fuse` adapter struct (reader/fuse.rs); the shutdown channel and
init-notification pipe are I/O-only collaborators with no bearing on the
embedded request handlers and are omitted. -/
structure Fuse where
  pfs : PuzzleFS

/-- The union of all open-flag bits defined by `nix::fcntl::OFlag` on Linux
(the bitflags universe that `OFlag::from_bits_truncate` masks with):
access-mode bits 0-1 and the O_CREAT..O_TMPFILE bits 6-22. -/
def OFLAG_ALL_BITS : Nat := 8388547

/-- `O_RDONLY | O_PATH | O_NONBLOCK | O_DIRECTORY | O_NOFOLLOW | O_NOATIME`,
the allowed set in `Fuse::_open` (reader/fuse.rs lines 97-102). -/
def ALLOWED_FLAGS : Nat := 2557952

/-- `OFlag::from_bits_truncate`: keep only bits that correspond to defined
flags. -/
def from_bits_truncate (bits : Nat) : Nat := bits &&& OFLAG_ALL_BITS

/-- Embedding of `Fuse::_open` (reader/fuse.rs lines 96-111) over
nonnegative i32 flag words: truncate the word to the defined flag bits,
reply `EROFS` unless the surviving bits are all allowed, else reply
`opened(0, flags_i)` echoing the original word. -/
def Fuse._open (_f : Fuse) (flags_i : Nat) : FuseReply :=
  let flags := from_bits_truncate flags_i
  if ¬ (ALLOWED_FLAGS &&& flags = flags) then FuseReply.error EROFS
  else FuseReply.opened 0 flags_i

/-- `Filesystem::open` delegates to `_open`. -/
def Fuse.fsOpen (f : Fuse) (_ino : Nat) (flags : Nat) : FuseReply := f._open flags

/-- `Filesystem::opendir` delegates to `_open`. -/
def Fuse.opendir (f : Fuse) (_ino : Nat) (flags : Nat) : FuseReply := f._open flags

/-- The xattrs stored on an inode (empty when `additional` is absent). -/
def inodeXattrs (i : Inode) : List Xattr :=
  match i.additional with
  | some add => add.xattrs
  | none => []

/-- `CString::new(key).expect(..).as_bytes_with_nul()` for one xattr key:
`none` models the panic when the key contains a 0x00 byte. -/
def xattrKeyBytes (x : Xattr) : Option (List Nat) :=
  if (0 : Nat) ∈ x.key then none else some (x.key ++ [0])

/-- The `flat_map`/`collect` over all xattr keys in `_listxattr`; `none`
models the panic on the first key containing 0x00. -/
def xattrListBytes : List Xattr → Option (List Nat)
  | [] => some []
  | x :: xs =>
    match xattrKeyBytes x, xattrListBytes xs with
    | some b, some rest => some (b ++ rest)
    | _, _ => none

/-- Embedding of `Fuse::_listxattr` (reader/fuse.rs lines 158-176): decode
the inode, concatenate every xattr key with a trailing NUL in stored order;
the outer `Option` is `none` exactly when the Rust code panics in
`CString::new(..).expect(..)`. -/
def Fuse._listxattr (f : Fuse) (ino : Nat) : Option (Except WireFormatError (List Nat)) :=
  match f.pfs.find_inode ino with
  | .error e => some (.error e)
  | .ok inode =>
    match inode.additional with
    | none => some (.ok [])
    | some add => (xattrListBytes add.xattrs).map fun l => Except.ok l

/-- Splitting a byte sequence on 0x00, as a caller of `listxattr` discovers
the stored keys (the framing stated by the spec). -/
def splitOnZero : List Nat → List (List Nat)
  | [] => [[]]
  | a :: rest =>
    if a = 0 then [] :: splitOnZero rest
    else
      match splitOnZero rest with
      | [] => [[a]]
      | h :: t => (a :: h) :: t

/-- Mutating `Filesystem` callbacks (reader/fuse.rs lines 258-482) are
embedded as state-passing functions: each returns the (unchanged) adapter
together with the reply it sends. `setattr` ignores every argument and
replies `EROFS`. -/
def Fuse.setattr (f : Fuse) (_ino : Nat) (_mode _uid _gid _size : Option Nat)
    (_atime _mtime _ctime _fh _crtime _chgtime _bkuptime _flags : Option Nat) :
    Fuse × FuseReply :=
  (f, .error EROFS)

/-- `mknod` replies `EROFS`. -/
def Fuse.mknod (f : Fuse) (_parent : Nat) (_name : List Nat) (_mode _umask _rdev : Nat) :
    Fuse × FuseReply :=
  (f, .error EROFS)

/-- `mkdir` replies `EROFS`. -/
def Fuse.mkdir (f : Fuse) (_parent : Nat) (_name : List Nat) (_mode _umask : Nat) :
    Fuse × FuseReply :=
  (f, .error EROFS)

/-- `unlink` replies `EROFS`. -/
def Fuse.unlink (f : Fuse) (_parent : Nat) (_name : List Nat) : Fuse × FuseReply :=
  (f, .error EROFS)

/-- `rmdir` replies `EROFS`. -/
def Fuse.rmdir (f : Fuse) (_parent : Nat) (_name : List Nat) : Fuse × FuseReply :=
  (f, .error EROFS)

/-- `symlink` replies `EROFS`. -/
def Fuse.symlink (f : Fuse) (_parent : Nat) (_name _link : List Nat) : Fuse × FuseReply :=
  (f, .error EROFS)

/-- `rename` replies `EROFS`. -/
def Fuse.rename (f : Fuse) (_parent : Nat) (_name : List Nat) (_newparent : Nat)
    (_newname : List Nat) (_flags : Nat) : Fuse × FuseReply :=
  (f, .error EROFS)

/-- `link` replies `EROFS`. -/
def Fuse.link (f : Fuse) (_ino _newparent : Nat) (_newname : List Nat) : Fuse × FuseReply :=
  (f, .error EROFS)

/-- `write` replies `EROFS`. -/
def Fuse.write (f : Fuse) (_ino _fh _offset : Nat) (_data : List Nat)
    (_write_flags _flags : Nat) (_lock_owner : Option Nat) : Fuse × FuseReply :=
  (f, .error EROFS)

/-- `flush` replies `ENOSYS`. -/
def Fuse.flush (f : Fuse) (_ino _fh _lock_owner : Nat) : Fuse × FuseReply :=
  (f, .error ENOSYS)

/-- `fsync` replies `EROFS`. -/
def Fuse.fsync (f : Fuse) (_ino _fh : Nat) (_datasync : Bool) : Fuse × FuseReply :=
  (f, .error EROFS)

/-- `fsyncdir` replies `EROFS`. -/
def Fuse.fsyncdir (f : Fuse) (_ino _fh : Nat) (_datasync : Bool) : Fuse × FuseReply :=
  (f, .error EROFS)

/-- `setxattr` replies `EROFS`. -/
def Fuse.setxattr (f : Fuse) (_ino : Nat) (_name _value : List Nat)
    (_flags _position : Nat) : Fuse × FuseReply :=
  (f, .error EROFS)

/-- `removexattr` replies `EROFS`. -/
def Fuse.removexattr (f : Fuse) (_ino : Nat) (_name : List Nat) : Fuse × FuseReply :=
  (f, .error EROFS)

/-- `create` replies `EROFS`. -/
def Fuse.create (f : Fuse) (_parent : Nat) (_name : List Nat) (_mode _umask _flags : Nat) :
    Fuse × FuseReply :=
  (f, .error EROFS)

/-- `getlk` replies `EROFS`. -/
def Fuse.getlk (f : Fuse) (_ino _fh _lock_owner _start _end _typ _pid : Nat) :
    Fuse × FuseReply :=
  (f, .error EROFS)

/-- `setlk` replies `EROFS`. -/
def Fuse.setlk (f : Fuse) (_ino _fh _lock_owner _start _end _typ _pid : Nat)
    (_sleep : Bool) : Fuse × FuseReply :=
  (f, .error EROFS)

/-- Concrete fixture: a file inode with xattr key "a". -/
def inodeXattrFix : Inode :=
  { ino := 3, mode := .Lnk, permissions := 420, uid := 0, gid := 0,
    additional := some { xattrs := [{ key := [97], val := [1] }], symlink_target := none } }

/-- Concrete fixture: an inode one of whose xattr keys contains a 0x00 byte. -/
def inodeXattrNulFix : Inode :=
  { ino := 4, mode := .Lnk, permissions := 420, uid := 0, gid := 0,
    additional := some { xattrs := [{ key := [97, 0, 98], val := [1] }],
                         symlink_target := none } }

/-- Concrete fixture: a two-chunk file inode (blob 0 holds two bytes, blob 1
three bytes). -/
def inodeFileFix : Inode :=
  { ino := 2, mode := .File [{ blob := 0, len := 2 }, { blob := 1, len := 3 }],
    permissions := 420, uid := 0, gid := 0, additional := none }

/-- Concrete fixture: the root directory, with the single entry "a" at
ino 2. -/
def inodeDirFix : Inode :=
  { ino := 1, mode := .Dir { entries := [{ ino := 2, name := [97] }] },
    permissions := 493, uid := 0, gid := 0, additional := none }

/-- Concrete fixture: the blob store contents for the fixture inodes. -/
def storeFix : Nat → List Nat :=
  fun b => if b = 0 then [10, 11] else [12, 13, 14]

/-- Concrete fixture: a rootfs reader serving the fixture inodes with
manifest version 3. -/
def rootfsFix : RootfsReader :=
  { get_manifest_version := .ok 3
    get_verity_data := .ok []
    find_inode := fun i =>
      if i = 1 then .ok inodeDirFix
      else if i = 2 then .ok inodeFileFix
      else if i = 3 then .ok inodeXattrFix
      else if i = 4 then .ok inodeXattrNulFix
      else .error (.Errno ENOENT)
    max_inode := .ok 4 }

/-- Concrete fixture: a rootfs reader reporting manifest version 5. -/
def rootfsBadVersionFix : RootfsReader :=
  { rootfsFix with get_manifest_version := .ok 5 }

/-- Concrete fixture: an image whose rootfs blob opens to `rootfsFix`. -/
def imageFix : Image :=
  { open_rootfs_blob := fun _ _ => .ok rootfsFix }

/-- Concrete fixture: an image whose rootfs reports version 5. -/
def imageBadVersionFix : Image :=
  { open_rootfs_blob := fun _ _ => .ok rootfsBadVersionFix }

/-- Concrete fixture: an opened PuzzleFS over the fixture image. -/
def pfsFix : PuzzleFS :=
  { oci := imageFix, rootfs := rootfsFix, verity_data := none, manifest_verity := none }

/-- Concrete fixture: the fuse adapter over the fixture filesystem. -/
def fuseFix : Fuse := { pfs := pfsFix }

/-- Writing no bytes leaves the buffer unchanged. -/
theorem writeAt_nil (data : List Nat) (b : Nat) : writeAt data b [] = data := by
  simp [writeAt]

/-- An in-bounds slice write preserves the buffer length. -/
theorem writeAt_length (data bs : List Nat) (b : Nat) (h : b + bs.length ≤ data.length) :
    (writeAt data b bs).length = data.length := by
  simp [writeAt]
  omega

/-- Two adjacent slice writes compose into one. -/
theorem writeAt_writeAt (data bs ys : List Nat) (b : Nat) (hb : b ≤ data.length) :
    writeAt (writeAt data b bs) (b + bs.length) ys = writeAt data b (bs ++ ys) := by
  simp only [writeAt, List.take_append_eq_append_take, List.drop_append_eq_append_drop,
    List.take_take, List.length_take, List.length_append, List.append_assoc]
  have h1 : min (b + bs.length) b = b := by omega
  have h2 : b + bs.length - min b data.length = bs.length := by omega
  have h3 : b + bs.length + ys.length - min b data.length = bs.length + ys.length := by omega
  rw [h1, h2, h3]
  have h4 : List.drop (b + bs.length + ys.length) (List.take b data) = [] := by
    apply List.drop_eq_nil_of_le
    simp [List.length_take]
    omega
  rw [h4]
  have h5 : List.drop (bs.length + ys.length) bs = [] :=
    List.drop_eq_nil_of_le (by omega)
  have h6 : bs.length + ys.length - bs.length = ys.length := by omega
  have h7 : b + (bs.length + ys.length) = b + bs.length + ys.length := by omega
  simp only [h5, h6, h7, List.take_length, Nat.sub_self, List.take_zero, List.nil_append,
    List.append_nil, List.drop_drop]

/-- Unfolding `fileContent` over a cons. -/
theorem fileContent_cons (store : Nat → List Nat) (c : Chunk) (cs : List Chunk) :
    fileContent store (c :: cs) = store c.blob ++ fileContent store cs := by
  simp [fileContent]

/-- Behaviour of the chunk loop under the full-read blob model once the file
cursor has entered the requested range (`file_offset = offset + buf_offset`):
every remaining chunk is visited, the remaining buffer space is filled from
the concatenated chunk bytes, and one request per chunk is issued. -/
theorem file_read_loop_full (store : Nat → List Nat) (offset : Nat) (chunks : List Chunk) :
    ∀ (data : List Nat) (buf_offset : Nat),
      (∀ c ∈ chunks, (store c.blob).length = c.len) →
      buf_offset ≤ data.length →
      file_read_loop (fillModel store) offset (offset + data.length) chunks data
          (offset + buf_offset) buf_offset
        = .ok (writeAt data buf_offset
                 ((fileContent store chunks).take (data.length - buf_offset)),
               buf_offset + min (data.length - buf_offset) (fileContent store chunks).length,
               fullReqs (data.length - buf_offset) chunks) := by
  induction chunks with
  | nil =>
    intro data buf_offset _ _
    simp [file_read_loop, fileContent, fullReqs, writeAt_nil]
  | cons c rest ih =>
    intro data buf_offset hstore hbuf
    have hclen : (store c.blob).length = c.len := hstore c (by simp)
    have h1 : ¬ (offset + data.length < offset + buf_offset) := by omega
    have h2 : ¬ (offset + buf_offset + c.len < offset) := by omega
    have h3 : ¬ (offset + buf_offset < offset) := by omega
    simp only [file_read_loop, if_neg h1, if_neg h2, if_neg h3, fillModel, List.drop_zero,
      Nat.sub_zero]
    have hbs : ((store c.blob).take (min (data.length - buf_offset) c.len)).length
        = min (data.length - buf_offset) c.len := by
      rw [List.length_take]
      omega
    rw [hbs]
    have hwlen : (writeAt data buf_offset
        ((store c.blob).take (min (data.length - buf_offset) c.len))).length
        = data.length := by
      apply writeAt_length
      rw [hbs]
      omega
    have hih := ih (writeAt data buf_offset
        ((store c.blob).take (min (data.length - buf_offset) c.len)))
      (buf_offset + min (data.length - buf_offset) c.len)
      (fun c hc => hstore c (by simp [hc]))
      (by rw [hwlen]; omega)
    rw [hwlen] at hih
    rw [show offset + buf_offset + 0 + min (data.length - buf_offset) c.len
        = offset + (buf_offset + min (data.length - buf_offset) c.len) by omega]
    rw [hih]
    have hcomp := writeAt_writeAt data
      ((store c.blob).take (min (data.length - buf_offset) c.len))
      ((fileContent store rest).take
        (data.length - (buf_offset + min (data.length - buf_offset) c.len)))
      buf_offset (by omega)
    rw [hbs] at hcomp
    rw [hcomp]
    simp only [Except.ok.injEq, Prod.mk.injEq]
    refine ⟨?_, ?_, ?_⟩
    · rw [fileContent_cons, List.take_append_eq_append_take, ← hclen]
      rcases Nat.le_total (data.length - buf_offset) (store c.blob).length with hle | hle
      · rw [min_eq_left hle]
        rw [show data.length - buf_offset - (store c.blob).length = 0 by omega]
        rw [show data.length - (buf_offset + (data.length - buf_offset)) = 0 by omega]
      · rw [min_eq_right hle, List.take_length,
          show data.length - (buf_offset + (store c.blob).length)
              = data.length - buf_offset - (store c.blob).length by omega,
          List.take_of_length_le hle]
    · rw [fileContent_cons, List.length_append, ← hclen]
      omega
    · rw [show fullReqs (data.length - buf_offset) (c :: rest)
          = ⟨c.blob, 0, min (data.length - buf_offset) c.len⟩ ::
              fullReqs (data.length - buf_offset - min (data.length - buf_offset) c.len) rest
          from rfl]
      rw [show data.length - (buf_offset + min (data.length - buf_offset) c.len)
          = data.length - buf_offset - min (data.length - buf_offset) c.len by omega]

/-- Behaviour of the chunk loop under the full-read blob model from its
initial state (`buf_offset = 0`, `file_offset` at or before `offset`): the
result assembles `data.length` bytes of the file content starting at
`offset - file_offset`, and the issued requests are `entryReqs`. -/
theorem file_read_loop_entry (store : Nat → List Nat) (offset : Nat) (chunks : List Chunk) :
    ∀ (data : List Nat) (file_offset : Nat),
      (∀ c ∈ chunks, (store c.blob).length = c.len) →
      file_offset ≤ offset →
      file_read_loop (fillModel store) offset (offset + data.length) chunks data file_offset 0
        = .ok (writeAt data 0
                 (((fileContent store chunks).drop (offset - file_offset)).take data.length),
               min data.length ((fileContent store chunks).length - (offset - file_offset)),
               entryReqs offset file_offset data.length chunks) := by
  induction chunks with
  | nil =>
    intro data file_offset _ _
    simp [file_read_loop, fileContent, entryReqs, writeAt_nil]
  | cons c rest ih =>
    intro data file_offset hstore hfo
    have hclen : (store c.blob).length = c.len := hstore c (by simp)
    have hstore' : ∀ c ∈ rest, (store c.blob).length = c.len :=
      fun c hc => hstore c (by simp [hc])
    have h1 : ¬ (offset + data.length < file_offset) := by omega
    by_cases hskip : file_offset + c.len < offset
    · simp only [file_read_loop, if_neg h1, if_pos hskip]
      rw [ih data (file_offset + c.len) hstore' (by omega)]
      simp only [Except.ok.injEq, Prod.mk.injEq]
      refine ⟨?_, ?_, ?_⟩
      · rw [fileContent_cons, List.drop_append_eq_append_drop]
        have hnil : (store c.blob).drop (offset - file_offset) = [] :=
          List.drop_eq_nil_of_le (by rw [hclen]; omega)
        rw [hnil, List.nil_append,
          show offset - file_offset - (store c.blob).length
              = offset - (file_offset + c.len) from by rw [hclen]; omega]
      · rw [fileContent_cons, List.length_append, hclen]
        omega
      · rw [show entryReqs offset file_offset data.length (c :: rest)
            = entryReqs offset (file_offset + c.len) data.length rest
            from by rw [entryReqs, if_pos hskip]]
    · simp only [file_read_loop, if_neg h1, if_neg hskip, fillModel, Nat.sub_zero,
        Nat.zero_add]
      have haddl : (if file_offset < offset then offset - file_offset else 0)
          = offset - file_offset := by
        split <;> omega
      rw [haddl]
      have hbs : (((store c.blob).drop (offset - file_offset)).take
          (min data.length (c.len - (offset - file_offset)))).length
          = min data.length (c.len - (offset - file_offset)) := by
        rw [List.length_take, List.length_drop, hclen]
        omega
      rw [hbs]
      have hwlen : (writeAt data 0 (((store c.blob).drop (offset - file_offset)).take
          (min data.length (c.len - (offset - file_offset))))).length = data.length := by
        apply writeAt_length
        rw [hbs]
        omega
      rw [show file_offset + (offset - file_offset)
            + min data.length (c.len - (offset - file_offset))
          = offset + min data.length (c.len - (offset - file_offset)) by omega]
      have hfull := file_read_loop_full store offset rest
        (writeAt data 0 (((store c.blob).drop (offset - file_offset)).take
          (min data.length (c.len - (offset - file_offset)))))
        (min data.length (c.len - (offset - file_offset)))
        hstore' (by rw [hwlen]; omega)
      rw [hwlen] at hfull
      rw [hfull]
      have hcomp := writeAt_writeAt data
        (((store c.blob).drop (offset - file_offset)).take
          (min data.length (c.len - (offset - file_offset))))
        ((fileContent store rest).take
          (data.length - min data.length (c.len - (offset - file_offset))))
        0 (by omega)
      rw [hbs, Nat.zero_add] at hcomp
      rw [hcomp]
      simp only [Except.ok.injEq, Prod.mk.injEq]
      refine ⟨?_, ?_, ?_⟩
      · rw [fileContent_cons, List.drop_append_eq_append_drop,
          show offset - file_offset - (store c.blob).length = 0 by omega,
          List.drop_zero, List.take_append_eq_append_take, List.length_drop, hclen]
        rcases Nat.le_total data.length (c.len - (offset - file_offset)) with hle | hle
        · rw [min_eq_left hle, show data.length - (c.len - (offset - file_offset)) = 0
              by omega, show data.length - data.length = 0 by omega]
        · have htk1 : ((store c.blob).drop (offset - file_offset)).take
              (c.len - (offset - file_offset)) = (store c.blob).drop (offset - file_offset) :=
            List.take_of_length_le (by simp [hclen])
          have htk2 : ((store c.blob).drop (offset - file_offset)).take data.length
              = (store c.blob).drop (offset - file_offset) :=
            List.take_of_length_le (by simp [hclen]; omega)
          rw [min_eq_right hle, htk1, htk2]
      · rw [fileContent_cons, List.length_append, hclen]
        omega
      · rw [show entryReqs offset file_offset data.length (c :: rest)
            = ⟨c.blob, offset - file_offset,
                min data.length (c.len - (offset - file_offset))⟩ ::
                fullReqs (data.length
                  - min data.length (c.len - (offset - file_offset))) rest
            from by rw [entryReqs, if_neg hskip]]

/-- `file_read` on a File inode under the full-read blob model: it fills the
buffer with the file content from `offset`, returns
`min (buffer length) (content length - offset)` and issues the `entryReqs`
requests. -/
theorem file_read_model (store : Nat → List Nat) (chunks : List Chunk) (inode : Inode)
    (offset : Nat) (data : List Nat)
    (hmode : inode.mode = .File chunks)
    (hstore : ∀ c ∈ chunks, (store c.blob).length = c.len) :
    file_read (fillModel store) inode offset data
      = .ok (writeAt data 0 (((fileContent store chunks).drop offset).take data.length),
             min data.length ((fileContent store chunks).length - offset),
             entryReqs offset 0 data.length chunks) := by
  rw [file_read, hmode]
  have h := file_read_loop_entry store offset chunks data 0 hstore (Nat.zero_le _)
  rw [Nat.sub_zero] at h
  exact h

/-- A write at the start of the buffer keeps the tail of the buffer. -/
theorem writeAt_zero (data bs : List Nat) : writeAt data 0 bs = bs ++ data.drop bs.length := by
  simp [writeAt]

/-- Explicit form of `file_read_model`: the output buffer is the read bytes
followed by the untouched tail of the original buffer. -/
theorem file_read_out (store : Nat → List Nat) (chunks : List Chunk) (inode : Inode)
    (offset : Nat) (data : List Nat)
    (hmode : inode.mode = .File chunks)
    (hstore : ∀ c ∈ chunks, (store c.blob).length = c.len) :
    file_read (fillModel store) inode offset data
      = .ok (((fileContent store chunks).drop offset).take data.length
               ++ data.drop (min data.length ((fileContent store chunks).length - offset)),
             min data.length ((fileContent store chunks).length - offset),
             entryReqs offset 0 data.length chunks) := by
  rw [file_read_model store chunks inode offset data hmode hstore, writeAt_zero]
  have hlen : (((fileContent store chunks).drop offset).take data.length).length
      = min data.length ((fileContent store chunks).length - offset) := by
    rw [List.length_take, List.length_drop]
  rw [hlen]

/-- Claim C1: for a File inode whose chunks concatenate to content `C` under
the full-read blob model, `file_read` at any offset into any buffer returns
exactly `min (buffer length) (length C - offset)` bytes (zero once
`offset ≥ length C`), the returned prefix of the buffer equals
`C[offset .. offset + returned]`, a full-length read at offset 0 returns
`C` itself, and reading in two halves split at any `k ≤ length C`
reassembles `C`. -/
theorem c1_read_round_trip (store : Nat → List Nat) (chunks : List Chunk) (inode : Inode)
    (offset : Nat) (data : List Nat)
    (hmode : inode.mode = .File chunks)
    (hstore : ∀ c ∈ chunks, (store c.blob).length = c.len) :
    ∃ out reqs,
      file_read (fillModel store) inode offset data
        = .ok (out, min data.length ((fileContent store chunks).length - offset), reqs)
      ∧ out.take (min data.length ((fileContent store chunks).length - offset))
          = ((fileContent store chunks).drop offset).take
              (min data.length ((fileContent store chunks).length - offset))
      ∧ ((fileContent store chunks).length ≤ offset →
          min data.length ((fileContent store chunks).length - offset) = 0)
      ∧ (offset = 0 → data.length = (fileContent store chunks).length →
          out = fileContent store chunks)
      ∧ (∀ k data₁ data₂, k ≤ (fileContent store chunks).length →
          data₁.length = k → data₂.length = (fileContent store chunks).length - k →
          ∃ out₁ reqs₁ out₂ reqs₂,
            file_read (fillModel store) inode 0 data₁ = .ok (out₁, k, reqs₁)
            ∧ file_read (fillModel store) inode k data₂
                = .ok (out₂, (fileContent store chunks).length - k, reqs₂)
            ∧ out₁.take k ++ out₂.take ((fileContent store chunks).length - k)
                = fileContent store chunks) := by
  have hlen : (((fileContent store chunks).drop offset).take data.length).length
      = min data.length ((fileContent store chunks).length - offset) := by
    rw [List.length_take, List.length_drop]
  refine ⟨((fileContent store chunks).drop offset).take data.length
      ++ data.drop (min data.length ((fileContent store chunks).length - offset)),
    entryReqs offset 0 data.length chunks,
    file_read_out store chunks inode offset data hmode hstore, ?_, ?_, ?_, ?_⟩
  · rw [List.take_append_eq_append_take, hlen, Nat.sub_self, List.take_zero,
      List.append_nil, List.take_take]
    congr 1
    omega
  · intro hle
    omega
  · intro h0 hLC
    subst h0
    rw [List.drop_zero, Nat.sub_zero, hLC, min_self, List.take_length, ← hLC,
      List.drop_length, List.append_nil]
  · intro k data₁ data₂ hk h1 h2
    have e1 := file_read_out store chunks inode 0 data₁ hmode hstore
    have e2 := file_read_out store chunks inode k data₂ hmode hstore
    have hr1 : min data₁.length ((fileContent store chunks).length - 0) = k := by omega
    have hr2 : min data₂.length ((fileContent store chunks).length - k)
        = (fileContent store chunks).length - k := by omega
    rw [hr1] at e1
    rw [hr2] at e2
    refine ⟨_, _, _, _, e1, e2, ?_⟩
    rw [List.drop_zero] at *
    have hx1 : ((fileContent store chunks).take data₁.length).length = k := by
      rw [List.length_take]
      omega
    have hx2 : (((fileContent store chunks).drop k).take data₂.length).length
        = (fileContent store chunks).length - k := by
      rw [List.length_take, List.length_drop]
      omega
    rw [List.take_append_eq_append_take, List.take_append_eq_append_take, hx1, hx2,
      Nat.sub_self, Nat.sub_self, List.take_zero, List.take_zero, List.append_nil,
      List.append_nil, h1, List.take_take, min_self, h2]
    have hy : (fileContent store chunks).length - k
        = ((fileContent store chunks).drop k).length := by
      rw [List.length_drop]
    rw [List.take_take, min_self, hy, List.take_length]
    exact List.take_append_drop k (fileContent store chunks)

/-- Claim C3: `file_read` on an inode that is not a File fails with errno
`ENOTDIR`, independently of the blob store (so no blob read is issued). -/
theorem c3_read_non_file_enotdir (fill : FillFn) (inode : Inode) (offset : Nat)
    (data : List Nat) (h : ∀ chunks, inode.mode ≠ InodeMode.File chunks) :
    file_read fill inode offset data = .error (WireFormatError.from_errno ENOTDIR) := by
  cases hm : inode.mode with
  | File chunks => exact absurd hm (h chunks)
  | Dir d => rw [file_read, hm]
  | Fifo => rw [file_read, hm]
  | Chr => rw [file_read, hm]
  | Blk => rw [file_read, hm]
  | Lnk => rw [file_read, hm]
  | Sock => rw [file_read, hm]

/-- Witness for C1 at a concrete two-chunk file: reading 3 bytes at offset 1
of the 5-byte content succeeds with 3 bytes returned. -/
theorem c1_read_round_trip_witness :
    ∃ out reqs,
      file_read (fillModel storeFix) inodeFileFix 1 [9, 9, 9] = .ok (out, 3, reqs) := by
  obtain ⟨out, reqs, heq, -⟩ := c1_read_round_trip storeFix
    [{ blob := 0, len := 2 }, { blob := 1, len := 3 }] inodeFileFix 1 [9, 9, 9]
    rfl (by decide)
  exact ⟨out, reqs, heq⟩

/-- Witness for C3 at the concrete directory inode. -/
theorem c3_read_non_file_enotdir_witness :
    file_read (fillModel storeFix) inodeDirFix 0 [1] =
      .error (WireFormatError.from_errno ENOTDIR) :=
  c3_read_non_file_enotdir (fillModel storeFix) inodeDirFix 0 [1]
    (fun chunks h => by simp [inodeDirFix] at h)

/-- In the in-range regime, the positive-length requests among `fullReqs`
are exactly the covered-chunk requests. -/
theorem fullReqs_filter_pos (offset l : Nat) (cs : List Chunk) :
    ∀ s : Nat, offset ≤ s →
      (fullReqs (l - (s - offset)) cs).filter ReadReq.isPos = coveredReqs offset l s cs := by
  induction cs with
  | nil => intro s _; rfl
  | cons c cs ih =>
    intro s hs
    by_cases hpos : 0 < min (l - (s - offset)) c.len
    · have hcond : max s offset < min (s + c.len) (offset + l) := by omega
      simp only [fullReqs, coveredReqs, if_pos hcond]
      rw [List.filter_cons, if_pos (by simp only [ReadReq.isPos, decide_eq_true_eq]; omega)]
      congr 1
      · have h1 : offset - s = 0 := by omega
        have h2 : min (s + c.len) (offset + l) - max s offset
            = min (l - (s - offset)) c.len := by omega
        rw [h1, h2]
      · have harg : l - (s - offset) - min (l - (s - offset)) c.len
            = l - (s + c.len - offset) := by omega
        rw [harg]
        exact ih (s + c.len) (by omega)
    · have hcond : ¬ (max s offset < min (s + c.len) (offset + l)) := by omega
      simp only [fullReqs, coveredReqs, if_neg hcond]
      rw [List.filter_cons, if_neg (by simp only [ReadReq.isPos, decide_eq_true_eq]; omega)]
      have harg : l - (s - offset) - min (l - (s - offset)) c.len
          = l - (s + c.len - offset) := by omega
      rw [harg]
      exact ih (s + c.len) (by omega)

/-- The positive-length requests among the requests `file_read` issues are
exactly the covered-chunk requests. -/
theorem entryReqs_filter_pos (offset l : Nat) (cs : List Chunk) :
    ∀ fo : Nat, fo ≤ offset →
      (entryReqs offset fo l cs).filter ReadReq.isPos = coveredReqs offset l fo cs := by
  induction cs with
  | nil => intro fo _; rfl
  | cons c cs ih =>
    intro fo hfo
    by_cases hskip : fo + c.len < offset
    · have hcond : ¬ (max fo offset < min (fo + c.len) (offset + l)) := by omega
      simp only [entryReqs, coveredReqs, if_pos hskip, if_neg hcond]
      exact ih (fo + c.len) (by omega)
    · simp only [entryReqs, if_neg hskip]
      by_cases hpos : 0 < min l (c.len - (offset - fo))
      · have hcond : max fo offset < min (fo + c.len) (offset + l) := by omega
        simp only [coveredReqs, if_pos hcond]
        rw [List.filter_cons, if_pos (by simp only [ReadReq.isPos, decide_eq_true_eq]; omega)]
        congr 1
        · have h2 : min (fo + c.len) (offset + l) - max fo offset
              = min l (c.len - (offset - fo)) := by omega
          rw [h2]
        · have harg : l - min l (c.len - (offset - fo)) = l - (fo + c.len - offset) := by
            omega
          rw [harg]
          exact fullReqs_filter_pos offset l cs (fo + c.len) (by omega)
      · have hcond : ¬ (max fo offset < min (fo + c.len) (offset + l)) := by omega
        simp only [coveredReqs, if_neg hcond]
        rw [List.filter_cons, if_neg (by simp only [ReadReq.isPos, decide_eq_true_eq]; omega)]
        have harg : l - min l (c.len - (offset - fo)) = l - (fo + c.len - offset) := by omega
        rw [harg]
        exact fullReqs_filter_pos offset l cs (fo + c.len) (by omega)

/-- No chunk is covered by a zero-length window. -/
theorem coveredReqs_nil_of_zero (offset : Nat) (cs : List Chunk) :
    ∀ s : Nat, coveredReqs offset 0 s cs = [] := by
  induction cs with
  | nil => intro s; rfl
  | cons c cs ih =>
    intro s
    simp only [coveredReqs, if_neg (show ¬ (max s offset < min (s + c.len) (offset + 0))
      by omega)]
    exact ih (s + c.len)

/-- No chunk is covered by a window starting at or past the end of the
chunk sequence. -/
theorem coveredReqs_nil_of_le (offset l : Nat) (cs : List Chunk) :
    ∀ s : Nat, (cs.map Chunk.len).sum + s ≤ offset → coveredReqs offset l s cs = [] := by
  induction cs with
  | nil => intro s _; rfl
  | cons c cs ih =>
    intro s hsum
    rw [List.map_cons, List.sum_cons] at hsum
    simp only [coveredReqs, if_neg (show ¬ (max s offset < min (s + c.len) (offset + l))
      by omega)]
    exact ih (s + c.len) (by omega)

/-- Under a consistent blob store, the content length is the sum of the
chunk lengths. -/
theorem fileContent_length (store : Nat → List Nat) (chunks : List Chunk)
    (hstore : ∀ c ∈ chunks, (store c.blob).length = c.len) :
    (fileContent store chunks).length = (chunks.map Chunk.len).sum := by
  induction chunks with
  | nil => rfl
  | cons c cs ih =>
    rw [fileContent_cons, List.length_append, hstore c (by simp), List.map_cons,
      List.sum_cons, ih (fun c hc => hstore c (by simp [hc]))]

/-- Claim C2 counterexample: a zero-length read of a two-chunk file issues
two `fill_from_chunk` calls (both of length zero), not none as the claim
states; the request list is nonempty. -/
theorem c2_counterexample :
    file_read (fillModel storeFix) inodeFileFix 0 []
      = .ok ([], 0, [{ blob := 0, off := 0, len := 0 }, { blob := 1, off := 0, len := 0 }])
    ∧ ([{ blob := 0, off := 0, len := 0 }, { blob := 1, off := 0, len := 0 }] :
        List ReadReq) ≠ [] := by
  exact ⟨rfl, by simp⟩

/-- Claim C2 (amended): `file_read` under the full-read blob model issues
exactly one positive-length blob request per chunk overlapping the
requested byte window, in chunk order, with the in-chunk offset and length
of the overlap; requests of length zero may additionally be issued (the
stop condition of the loop, `file_offset > end`, never triggers before the chunk
list is exhausted). In particular a zero-length read and a read starting
at or past the file length return zero bytes and issue no positive-length
request. -/
theorem c2_blob_requests (store : Nat → List Nat) (chunks : List Chunk) (inode : Inode)
    (offset : Nat) (data : List Nat)
    (hmode : inode.mode = .File chunks)
    (hstore : ∀ c ∈ chunks, (store c.blob).length = c.len) :
    ∃ out reqs,
      file_read (fillModel store) inode offset data
        = .ok (out, min data.length ((fileContent store chunks).length - offset), reqs)
      ∧ reqs.filter ReadReq.isPos = coveredReqs offset data.length 0 chunks
      ∧ (data.length = 0 →
          min data.length ((fileContent store chunks).length - offset) = 0
          ∧ coveredReqs offset data.length 0 chunks = [])
      ∧ ((fileContent store chunks).length ≤ offset →
          min data.length ((fileContent store chunks).length - offset) = 0
          ∧ coveredReqs offset data.length 0 chunks = []) := by
  refine ⟨_, entryReqs offset 0 data.length chunks,
    file_read_out store chunks inode offset data hmode hstore, ?_, ?_, ?_⟩
  · exact entryReqs_filter_pos offset data.length chunks 0 (Nat.zero_le _)
  · intro h0
    refine ⟨by omega, ?_⟩
    rw [h0]
    exact coveredReqs_nil_of_zero offset chunks 0
  · intro hle
    have hsum := fileContent_length store chunks hstore
    refine ⟨by omega, ?_⟩
    exact coveredReqs_nil_of_le offset data.length chunks 0 (by omega)

/-- Witness for the amended C2: reading 3 bytes at offset 1 of the fixture
file issues positive requests exactly for the two covered chunks, in order. -/
theorem c2_blob_requests_witness :
    ∃ out reqs,
      file_read (fillModel storeFix) inodeFileFix 1 [9, 9, 9] = .ok (out, 3, reqs)
      ∧ reqs.filter ReadReq.isPos
          = [{ blob := 0, off := 1, len := 1 }, { blob := 1, off := 0, len := 2 }] := by
  obtain ⟨out, reqs, heq, hfil, -, -⟩ := c2_blob_requests storeFix
    [{ blob := 0, len := 2 }, { blob := 1, len := 3 }] inodeFileFix 1 [9, 9, 9]
    rfl (by decide)
  exact ⟨out, reqs, heq, by rw [hfil]; decide⟩

/-- A lookup starting at the root marker reduces to fetching ino 1 and
walking the remaining components. -/
theorem lookup_root_cons (p : PuzzleFS) (rest : List Component) :
    p.lookup (Component.RootDir :: rest)
      = some (match p.find_inode 1 with
              | .error e => .error e
              | .ok root => lookup_walk p rest root) := by
  simp [PuzzleFS.lookup]

/-- If a component walk fully resolves to an inode, walking an extended
path continues from that inode. -/
theorem lookup_walk_append (p : PuzzleFS) (pre : List Component) :
    ∀ (cur mid : Inode) (rest : List Component),
      lookup_walk p pre cur = .ok (some mid) →
      lookup_walk p (pre ++ rest) cur = lookup_walk p rest mid := by
  induction pre with
  | nil =>
    intro cur mid rest h
    simp only [lookup_walk, Except.ok.injEq, Option.some.injEq] at h
    rw [List.nil_append, h]
  | cons comp pre ih =>
    intro cur mid rest h
    cases comp with
    | Normal name =>
      cases hm : cur.mode with
      | Dir dl =>
        cases hf : dl.entries.find? (fun de => de.name == name) with
        | some de =>
          cases hfi : p.find_inode de.ino with
          | error e =>
            simp [lookup_walk, hm, hf, hfi] at h
          | ok next =>
            simp only [lookup_walk, hm, hf, hfi] at h ⊢
            exact ih next mid rest h
        | none =>
          simp [lookup_walk, hm, hf] at h
      | File chunks => simp [lookup_walk, hm] at h
      | Fifo => simp [lookup_walk, hm] at h
      | Chr => simp [lookup_walk, hm] at h
      | Blk => simp [lookup_walk, hm] at h
      | Lnk => simp [lookup_walk, hm] at h
      | Sock => simp [lookup_walk, hm] at h
    | RootDir => simp [lookup_walk] at h
    | CurDir => simp [lookup_walk] at h
    | ParentDir => simp [lookup_walk] at h

/-- Claim C4 counterexample: on the fixture image (whose root has no entry
"x"), looking up the path `/x/..` — which contains the non-plain component
`..` — returns the null result, not the `EINVAL` error the claim requires
for every path containing a non-plain component. -/
theorem c4_counterexample :
    pfsFix.lookup [Component.RootDir, Component.Normal [120], Component.ParentDir]
      = some (Except.ok none)
    ∧ pfsFix.lookup [Component.RootDir, Component.Normal [120], Component.ParentDir]
      ≠ some (Except.error (WireFormatError.from_errno EINVAL)) := by
  refine ⟨rfl, ?_⟩
  intro h
  rw [show pfsFix.lookup [Component.RootDir, Component.Normal [120], Component.ParentDir]
      = some (Except.ok none) from rfl] at h
  simp at h

/-- Claim C4 (amended): a path whose first component is not the root marker
fails with `EINVAL`; `lookup` of "/" returns the root inode (which has
ino 1 by the image invariant); a component that is not a plain name fails
with `EINVAL` only when the walk reaches it, i.e. when every earlier
component resolves through an existing directory entry — a name miss or a
non-directory encountered earlier yields the null result `Ok(None)` first,
as the name-miss and non-directory clauses state. -/
theorem c4_lookup (p : PuzzleFS) :
    (∀ c0 rest, c0 ≠ Component.RootDir →
       p.lookup (c0 :: rest) = some (.error (WireFormatError.from_errno EINVAL)))
    ∧ (∀ root, p.find_inode 1 = .ok root → root.ino = 1 →
       p.lookup [Component.RootDir] = some (.ok (some root)))
    ∧ (∀ pre mid bad post, p.lookup (Component.RootDir :: pre) = some (.ok (some mid)) →
       (∀ nm, bad ≠ Component.Normal nm) →
       p.lookup (Component.RootDir :: (pre ++ bad :: post))
         = some (.error (WireFormatError.from_errno EINVAL)))
    ∧ (∀ pre mid name rest dl,
       p.lookup (Component.RootDir :: pre) = some (.ok (some mid)) →
       mid.mode = InodeMode.Dir dl →
       dl.entries.find? (fun de => de.name == name) = none →
       p.lookup (Component.RootDir :: (pre ++ Component.Normal name :: rest))
         = some (.ok none))
    ∧ (∀ pre mid name rest,
       p.lookup (Component.RootDir :: pre) = some (.ok (some mid)) →
       (∀ dl, mid.mode ≠ InodeMode.Dir dl) →
       p.lookup (Component.RootDir :: (pre ++ Component.Normal name :: rest))
         = some (.ok none)) := by
  refine ⟨?_, ?_, ?_, ?_, ?_⟩
  · intro c0 rest h
    simp only [PuzzleFS.lookup, if_neg h]
  · intro root hf _
    rw [lookup_root_cons, hf]
    rfl
  · intro pre mid bad post hpre hbad
    rw [lookup_root_cons] at hpre ⊢
    cases hfi : p.find_inode 1 with
    | error e => rw [hfi] at hpre; simp at hpre
    | ok root =>
      rw [hfi] at hpre
      simp only [Option.some.injEq] at hpre
      show some (lookup_walk p (pre ++ bad :: post) root) = _
      rw [lookup_walk_append p pre root mid (bad :: post) hpre]
      cases bad with
      | Normal nm => exact absurd rfl (hbad nm)
      | RootDir => rfl
      | CurDir => rfl
      | ParentDir => rfl
  · intro pre mid name rest dl hpre hdl hfind
    rw [lookup_root_cons] at hpre ⊢
    cases hfi : p.find_inode 1 with
    | error e => rw [hfi] at hpre; simp at hpre
    | ok root =>
      rw [hfi] at hpre
      simp only [Option.some.injEq] at hpre
      show some (lookup_walk p (pre ++ Component.Normal name :: rest) root) = _
      rw [lookup_walk_append p pre root mid (Component.Normal name :: rest) hpre]
      simp only [lookup_walk, hdl, hfind]
  · intro pre mid name rest hpre hnd
    rw [lookup_root_cons] at hpre ⊢
    cases hfi : p.find_inode 1 with
    | error e => rw [hfi] at hpre; simp at hpre
    | ok root =>
      rw [hfi] at hpre
      simp only [Option.some.injEq] at hpre
      show some (lookup_walk p (pre ++ Component.Normal name :: rest) root) = _
      rw [lookup_walk_append p pre root mid (Component.Normal name :: rest) hpre]
      cases hm : mid.mode with
      | Dir dl => exact absurd hm (hnd dl)
      | File chunks => simp only [lookup_walk, hm]
      | Fifo => simp only [lookup_walk, hm]
      | Chr => simp only [lookup_walk, hm]
      | Blk => simp only [lookup_walk, hm]
      | Lnk => simp only [lookup_walk, hm]
      | Sock => simp only [lookup_walk, hm]

/-- Witness for the amended C4 on the fixture image: a relative first
component errors `EINVAL`; "/" resolves to the root inode; a reached `..`
errors `EINVAL`; a missing name and a walk through a non-directory yield
null. -/
theorem c4_lookup_witness :
    pfsFix.lookup [Component.CurDir] = some (.error (WireFormatError.from_errno EINVAL))
    ∧ pfsFix.lookup [Component.RootDir] = some (.ok (some inodeDirFix))
    ∧ pfsFix.lookup [Component.RootDir, Component.Normal [97], Component.ParentDir]
        = some (.error (WireFormatError.from_errno EINVAL))
    ∧ pfsFix.lookup [Component.RootDir, Component.Normal [120]] = some (.ok none)
    ∧ pfsFix.lookup [Component.RootDir, Component.Normal [97], Component.Normal [98]]
        = some (.ok none) := by
  obtain ⟨h1, h2, h3, h4, h5⟩ := c4_lookup pfsFix
  refine ⟨h1 Component.CurDir [] (by decide), h2 inodeDirFix rfl rfl, ?_, ?_, ?_⟩
  · exact h3 [Component.Normal [97]] inodeFileFix Component.ParentDir [] rfl
      (fun nm h => Component.noConfusion h)
  · exact h4 [] inodeDirFix [120] [] { entries := [{ ino := 2, name := [97] }] } rfl rfl rfl
  · exact h5 [Component.Normal [97]] inodeFileFix [98] [] rfl
      (fun dl h => by simp [inodeFileFix] at h)

/-- Claim C9: `lookup` indexes the first path component before any other
check; the embedding is total (no panic) exactly on nonempty component
lists, and on the empty list the indexing panic means neither an `Ok`
result nor the `EINVAL` error is produced. -/
theorem c9_lookup_totality (p : PuzzleFS) (components : List Component) :
    (components = [] → p.lookup components = none)
    ∧ (components ≠ [] → (p.lookup components).isSome = true) := by
  constructor
  · intro h
    subst h
    rfl
  · intro h
    match components with
    | [] => exact absurd rfl h
    | c0 :: rest => rfl

/-- Witness for C9: the fixture filesystem panics (returns no reply) on the
empty component list and returns a value on "/". -/
theorem c9_lookup_totality_witness :
    pfsFix.lookup [] = none ∧ (pfsFix.lookup [Component.RootDir]).isSome = true :=
  ⟨(c9_lookup_totality pfsFix []).1 rfl,
   (c9_lookup_totality pfsFix [Component.RootDir]).2 (List.cons_ne_nil _ _)⟩

/-- Claim C5: every mutating fuse operation — setattr, mknod, mkdir, unlink,
rmdir, symlink, rename, link, write, fsync, fsyncdir, setxattr, removexattr,
create, getlk, setlk — replies `EROFS` for every input, `flush` replies
`ENOSYS`, and each returns the adapter state unchanged. -/
theorem c5_read_only_enforcement (f : Fuse) :
    (∀ ino mode uid gid size atime mtime ctime fh crtime chgtime bkuptime flags,
      f.setattr ino mode uid gid size atime mtime ctime fh crtime chgtime bkuptime flags
        = (f, .error EROFS))
    ∧ (∀ parent name mode umask rdev,
      f.mknod parent name mode umask rdev = (f, .error EROFS))
    ∧ (∀ parent name mode umask, f.mkdir parent name mode umask = (f, .error EROFS))
    ∧ (∀ parent name, f.unlink parent name = (f, .error EROFS))
    ∧ (∀ parent name, f.rmdir parent name = (f, .error EROFS))
    ∧ (∀ parent name link, f.symlink parent name link = (f, .error EROFS))
    ∧ (∀ parent name newparent newname flags,
      f.rename parent name newparent newname flags = (f, .error EROFS))
    ∧ (∀ ino newparent newname, f.link ino newparent newname = (f, .error EROFS))
    ∧ (∀ ino fh offset dat wflags flags lock,
      f.write ino fh offset dat wflags flags lock = (f, .error EROFS))
    ∧ (∀ ino fh datasync, f.fsync ino fh datasync = (f, .error EROFS))
    ∧ (∀ ino fh datasync, f.fsyncdir ino fh datasync = (f, .error EROFS))
    ∧ (∀ ino name value flags position,
      f.setxattr ino name value flags position = (f, .error EROFS))
    ∧ (∀ ino name, f.removexattr ino name = (f, .error EROFS))
    ∧ (∀ parent name mode umask flags,
      f.create parent name mode umask flags = (f, .error EROFS))
    ∧ (∀ ino fh lock s e typ pid, f.getlk ino fh lock s e typ pid = (f, .error EROFS))
    ∧ (∀ ino fh lock s e typ pid sleep,
      f.setlk ino fh lock s e typ pid sleep = (f, .error EROFS))
    ∧ (∀ ino fh lock, f.flush ino fh lock = (f, .error ENOSYS)) := by
  refine ⟨?_, ?_, ?_, ?_, ?_, ?_, ?_, ?_, ?_, ?_, ?_, ?_, ?_, ?_, ?_, ?_, ?_⟩ <;>
    intros <;> rfl

/-- Claim C6 counterexample: the i32 flag word 4 has bit 2 set, which is not
in the allowed set `{RDONLY, PATH, NONBLOCK, DIRECTORY, NOFOLLOW, NOATIME}`,
yet `_open` replies `opened(0, 4)` instead of the `EROFS` the claim requires,
because `from_bits_truncate` silently discards bits that are not defined
`OFlag` bits before the check. -/
theorem c6_counterexample :
    (4 : Nat).testBit 2 = true ∧ ALLOWED_FLAGS.testBit 2 = false
    ∧ fuseFix._open 4 = .opened 0 4
    ∧ fuseFix._open 4 ≠ .error EROFS := by
  decide

/-- Claim C6 (amended): a flag word all of whose set bits lie in the allowed
set is accepted, replying `opened(0, word)` with the original word echoed;
a word with a set bit that is a *defined* `OFlag` bit outside the allowed
set is rejected with `EROFS`; set bits that correspond to no defined flag
are truncated away before the check (so such a word can be accepted). Both
`open` and `opendir` behave as `_open`. -/
theorem c6_open_flags (f : Fuse) (flags : Nat) :
    ((∀ i, flags.testBit i = true → OFLAG_ALL_BITS.testBit i = true →
        ALLOWED_FLAGS.testBit i = true) →
      f._open flags = .opened 0 flags
      ∧ (∀ ino, f.fsOpen ino flags = .opened 0 flags)
      ∧ (∀ ino, f.opendir ino flags = .opened 0 flags))
    ∧ ((∃ i, flags.testBit i = true ∧ OFLAG_ALL_BITS.testBit i = true
        ∧ ALLOWED_FLAGS.testBit i = false) →
      f._open flags = .error EROFS
      ∧ (∀ ino, f.fsOpen ino flags = .error EROFS)
      ∧ (∀ ino, f.opendir ino flags = .error EROFS)) := by
  constructor
  · intro h
    have hsub : ALLOWED_FLAGS &&& (flags &&& OFLAG_ALL_BITS) = flags &&& OFLAG_ALL_BITS := by
      apply Nat.eq_of_testBit_eq
      intro i
      simp only [Nat.testBit_land]
      cases hfl : flags.testBit i
      · simp
      · cases hall : OFLAG_ALL_BITS.testBit i
        · simp
        · simp [h i hfl hall]
    have hres : f._open flags = .opened 0 flags := by
      simp only [Fuse._open, from_bits_truncate]
      rw [if_neg (not_not_intro hsub)]
    exact ⟨hres, fun _ => hres, fun _ => hres⟩
  · intro ⟨i, hfl, hall, hnal⟩
    have hne : ¬ (ALLOWED_FLAGS &&& (flags &&& OFLAG_ALL_BITS) = flags &&& OFLAG_ALL_BITS) := by
      intro heq
      have hbit := congrArg (fun n => n.testBit i) heq
      simp only [Nat.testBit_land, hfl, hall, hnal] at hbit
      exact absurd hbit (by simp)
    have hres : f._open flags = .error EROFS := by
      simp only [Fuse._open, from_bits_truncate]
      rw [if_pos hne]
    exact ⟨hres, fun _ => hres, fun _ => hres⟩

/-- Witness for the amended C6: the word 0 (`O_RDONLY`) is accepted, the
word 64 (`O_CREAT`, a defined flag outside the allowed set) is rejected. -/
theorem c6_open_flags_witness :
    fuseFix._open 0 = .opened 0 0 ∧ fuseFix._open 64 = .error EROFS :=
  ⟨((c6_open_flags fuseFix 0).1
      (fun i hi _ => by rw [Nat.zero_testBit] at hi; exact Bool.noConfusion hi)).1,
   ((c6_open_flags fuseFix 64).2 ⟨6, by decide, by decide, by decide⟩).1⟩

/-- Claim C7: `PuzzleFS::open` succeeds only when the version of the root
manifest is 3; for any other observed version it fails with an
invalid-image-version error whose message contains the digits of both the
observed version and the expected version 3. -/
theorem c7_manifest_version (oci : Image) (tag : String) (mv : Option (List Nat))
    (rootfs : RootfsReader) (v : Nat)
    (hopen : oci.open_rootfs_blob tag mv = .ok rootfs)
    (hver : rootfs.get_manifest_version = .ok v) :
    (∀ pfs, PuzzleFS.openImage oci tag mv = .ok pfs → v = PUZZLEFS_IMAGE_MANIFEST_VERSION)
    ∧ (v ≠ PUZZLEFS_IMAGE_MANIFEST_VERSION →
      PuzzleFS.openImage oci tag mv
        = .error (.InvalidImageVersion (gotExpectedMsg v PUZZLEFS_IMAGE_MANIFEST_VERSION))
      ∧ Nat.toDigits 10 v <:+: gotExpectedMsg v PUZZLEFS_IMAGE_MANIFEST_VERSION
      ∧ Nat.toDigits 10 PUZZLEFS_IMAGE_MANIFEST_VERSION
          <:+: gotExpectedMsg v PUZZLEFS_IMAGE_MANIFEST_VERSION) := by
  constructor
  · intro pfs hok
    by_contra hne
    simp [PuzzleFS.openImage, hopen, hver, hne] at hok
  · intro hne
    refine ⟨?_, ?_, ?_⟩
    · simp [PuzzleFS.openImage, hopen, hver, hne]
    · exact ⟨"got ".data,
        ", expected ".data ++ Nat.toDigits 10 PUZZLEFS_IMAGE_MANIFEST_VERSION,
        by simp [gotExpectedMsg]⟩
    · exact ⟨"got ".data ++ Nat.toDigits 10 v ++ ", expected ".data, [],
        by simp [gotExpectedMsg]⟩

/-- Witness for C7 at a concrete image reporting manifest version 5: open
fails with the "got 5, expected 3" invalid-version error. -/
theorem c7_manifest_version_witness :
    PuzzleFS.openImage imageBadVersionFix "t" none
      = .error (.InvalidImageVersion (gotExpectedMsg 5 3))
    ∧ Nat.toDigits 10 5 <:+: gotExpectedMsg 5 3
    ∧ Nat.toDigits 10 3 <:+: gotExpectedMsg 5 3 := by
  obtain ⟨-, h⟩ := c7_manifest_version imageBadVersionFix "t" none rootfsBadVersionFix 5
    rfl rfl
  obtain ⟨h1, h2, h3⟩ := h (by decide)
  exact ⟨h1, h2, h3⟩

/-- When no key contains a 0x00 byte, the xattr byte assembly succeeds and
produces each key followed by one NUL, in order. -/
theorem xattrListBytes_of_nonul (xs : List Xattr) (h : ∀ x ∈ xs, (0 : Nat) ∉ x.key) :
    xattrListBytes xs = some ((xs.map fun x => x.key ++ [0]).flatten) := by
  induction xs with
  | nil => rfl
  | cons x xs ih =>
    have hx : (0 : Nat) ∉ x.key := h x (by simp)
    rw [xattrListBytes, show xattrKeyBytes x = some (x.key ++ [0])
        from by rw [xattrKeyBytes, if_neg hx],
      ih (fun y hy => h y (by simp [hy]))]
    simp

/-- A key containing a 0x00 byte makes the xattr byte assembly panic. -/
theorem xattrListBytes_none_of_nul (xs : List Xattr) (x : Xattr) (hx : x ∈ xs)
    (h0 : (0 : Nat) ∈ x.key) : xattrListBytes xs = none := by
  induction xs with
  | nil => cases hx
  | cons y ys ih =>
    rcases List.mem_cons.mp hx with heq | hmem
    · subst heq
      rw [xattrListBytes, show xattrKeyBytes x = none from by rw [xattrKeyBytes, if_pos h0]]
    · rw [xattrListBytes, ih hmem]
      cases hk : xattrKeyBytes y <;> rfl

/-- Splitting on zero after a zero-free key peels off exactly that key. -/
theorem splitOnZero_append_key (k : List Nat) (hk : (0 : Nat) ∉ k) (rest : List Nat) :
    splitOnZero (k ++ 0 :: rest) = k :: splitOnZero rest := by
  induction k with
  | nil => rfl
  | cons a k ih =>
    have ha : ¬ (a = 0) := fun h0 => hk (by rw [← h0]; exact List.mem_cons_self a k)
    rw [List.cons_append, splitOnZero, if_neg ha,
      ih (fun hx => hk (List.mem_cons_of_mem a hx))]

/-- The xattr wire format framing: splitting the concatenation of
NUL-terminated zero-free keys on 0x00 recovers the keys plus an empty
trailing element. -/
theorem splitOnZero_flatten_keys (keys : List (List Nat))
    (h : ∀ k ∈ keys, (0 : Nat) ∉ k) :
    splitOnZero ((keys.map fun k => k ++ [0]).flatten) = keys ++ [[]] := by
  induction keys with
  | nil => rfl
  | cons k keys ih =>
    rw [List.map_cons, List.flatten_cons, List.append_assoc, List.singleton_append,
      splitOnZero_append_key k (h k (by simp)) _,
      ih (fun k hk => h k (by simp [hk])), List.cons_append]

/-- Claim C8: for an inode none of whose xattr keys contains 0x00 (the case
in which `_listxattr` returns at all), the returned byte sequence is the
concatenation of the keys in stored order, each followed by exactly one
0x00 byte; splitting it on 0x00 yields the stored keys plus an empty
trailing element; and it is empty when the inode has no xattrs. -/
theorem c8_listxattr_framing (f : Fuse) (ino : Nat) (inode : Inode)
    (hfind : f.pfs.find_inode ino = .ok inode)
    (hnul : ∀ x ∈ inodeXattrs inode, (0 : Nat) ∉ x.key) :
    f._listxattr ino
      = some (.ok (((inodeXattrs inode).map fun x => x.key ++ [0]).flatten))
    ∧ splitOnZero (((inodeXattrs inode).map fun x => x.key ++ [0]).flatten)
        = (inodeXattrs inode).map Xattr.key ++ [[]]
    ∧ (inodeXattrs inode = [] →
        ((inodeXattrs inode).map fun x => x.key ++ [0]).flatten = []) := by
  refine ⟨?_, ?_, ?_⟩
  · cases hadd : inode.additional with
    | none => simp [Fuse._listxattr, hfind, hadd, inodeXattrs]
    | some add =>
      have hb := xattrListBytes_of_nonul add.xattrs
        (by intro x hx; exact hnul x (by simp [inodeXattrs, hadd, hx]))
      simp [Fuse._listxattr, hfind, hadd, hb, inodeXattrs]
  · rw [show (inodeXattrs inode).map (fun x => x.key ++ [0])
        = ((inodeXattrs inode).map Xattr.key).map (fun k => k ++ [0])
        from by rw [List.map_map]; rfl]
    exact splitOnZero_flatten_keys ((inodeXattrs inode).map Xattr.key)
      (fun k hk => by obtain ⟨x, hx, rfl⟩ := List.mem_map.mp hk; exact hnul x hx)
  · intro h
    rw [h]
    rfl

/-- Witness for C8 at the fixture inode carrying the single xattr key "a"
(byte 97): the reply is `97 00`, and splitting on zero gives the key and an
empty trailing element. -/
theorem c8_listxattr_framing_witness :
    fuseFix._listxattr 3 = some (.ok [97, 0])
    ∧ splitOnZero [97, 0] = [[97], []] := by
  obtain ⟨h1, h2, -⟩ := c8_listxattr_framing fuseFix 3 inodeXattrFix rfl (by decide)
  exact ⟨h1, h2⟩

/-- Claim C10: the key conversion in `_listxattr` is total when no xattr key of
the inode contains a 0x00 byte (the `expect` branch is then unreachable);
and for an inode with some key containing 0x00 the operation panics —
returns no reply at all — instead of producing a result. -/
theorem c10_listxattr_nul_panic (f : Fuse) (ino : Nat) (inode : Inode)
    (add : InodeAdditional)
    (hfind : f.pfs.find_inode ino = .ok inode)
    (hadd : inode.additional = some add) :
    ((∀ x ∈ add.xattrs, (0 : Nat) ∉ x.key) → (f._listxattr ino).isSome = true)
    ∧ ((∃ x ∈ add.xattrs, (0 : Nat) ∈ x.key) → f._listxattr ino = none) := by
  constructor
  · intro h
    have hb := xattrListBytes_of_nonul add.xattrs h
    simp [Fuse._listxattr, hfind, hadd, hb]
  · intro ⟨x, hx, h0⟩
    have hb := xattrListBytes_none_of_nul add.xattrs x hx h0
    simp [Fuse._listxattr, hfind, hadd, hb]

/-- Witness for C10: the fixture inode with the zero-free key returns a
reply; the fixture inode whose key contains a 0x00 byte panics (no reply). -/
theorem c10_listxattr_nul_panic_witness :
    (fuseFix._listxattr 3).isSome = true ∧ fuseFix._listxattr 4 = none :=
  ⟨(c10_listxattr_nul_panic fuseFix 3 inodeXattrFix
      { xattrs := [{ key := [97], val := [1] }], symlink_target := none } rfl rfl).1
      (by decide),
   (c10_listxattr_nul_panic fuseFix 4 inodeXattrNulFix
      { xattrs := [{ key := [97, 0, 98], val := [1] }], symlink_target := none } rfl rfl).2
      ⟨{ key := [97, 0, 98], val := [1] }, by decide, by decide⟩⟩

end PuzzleFs
